import Mathlib

/-! Verification of the UTXO query and coin-selection layer (`DataSource`, in
`packages/btc/src/query/source.ts`) of the rgbpp-sdk repository.

The TypeScript class `DataSource` is shallowly embedded as pure Lean
functions.  The remote `BtcAssetsApi` service is an explicit oracle (a record
of total functions); remote *failures* are outside the model (the code
propagates them unchanged).  Asynchronous methods become pure functions that
take the service oracle and the cache state and return the new cache state
explicitly.  JavaScript numbers holding satoshi values, vout indices and
block heights are exact integers in the relevant range, so they are embedded
as `Nat` (block heights as `Int`, since the comparator subtracts them).

Modules of the repository that `source.ts` imports but whose sources were not
provided (`query/cache.ts`, `transaction/embed.ts`, the btc `error.ts`, the
address utilities) are modelled from the specification; each such definition
carries a doc comment starting with `Modelled from the spec:`. -/

namespace RgbppBtc

/-- Error codes referenced by `query/source.ts`.  The first five constructors
are the enum of `packages/sdk/src/error.ts`; `UNSPENDABLE_OUTPUT` and
`UNCONFIRMED_UTXO` are the additional codes of the btc package's error module
(not among the provided sources), named as `source.ts` uses them. -/
inductive ErrorCodes where
  | UNKNOWN
  | INSUFFICIENT_UTXO
  | UNSUPPORTED_ADDRESS_TYPE
  | ASSETS_API_RESPONSE_ERROR
  | ASSETS_API_RESPONSE_DECODE_ERROR
  | UNSPENDABLE_OUTPUT
  | UNCONFIRMED_UTXO
  deriving DecidableEq, Repr

/-- Embedding of `TxBuildError` (`packages/sdk/src/error.ts`): an error value
carrying a code and a message string. -/
structure TxBuildError where
  code : ErrorCodes
  message : String
  deriving DecidableEq, Repr

/-- Modelled from the spec: `TxBuildError.withComment(code, comment)` of the
btc package's error module (not among the provided sources) builds a
`TxBuildError` whose message carries the given comment (the diagnostic
amounts / outpoint in `source.ts`). -/
def TxBuildError.withComment (code : ErrorCodes) (comment : String) : TxBuildError :=
  { code := code, message := comment }

/-- The diagnostic comment attached to an `INSUFFICIENT_UTXO` failure:
the template string `expected: \x7btargetAmount\x7d, actual: \x7bcollectedAmount\x7d`. -/
def insufficientComment (tgt amt : Nat) : String :=
  s!"expected: {tgt}, actual: {amt}"

/-- The diagnostic comment attached to `UNSPENDABLE_OUTPUT` and
`UNCONFIRMED_UTXO` failures: the template string
`hash: \x7bhash\x7d, index: \x7bindex\x7d`. -/
def outpointComment (hash : String) (index : Nat) : String :=
  s!"hash: {hash}, index: {index}"

/-- Modelled from the spec: `remove0x` (`utils.ts`, not among the provided
sources) strips a leading hexadecimal prefix marker from a transaction id. -/
def remove0x (s : String) : String :=
  match s.data with
  | '0' :: 'x' :: rest => String.mk rest
  | _ => s

/-- Modelled from the spec: `isOpReturnScriptPubkey` (`transaction/embed.ts`,
not among the provided sources) recognises a data-carrier script: per the
spec, "an output whose script encodes arbitrary data rather than a spending
condition", detected as "scriptPubKey beginning with the data-carrier
opcode" (OP_RETURN, byte `0x6a`).  Scripts are carried as lowercase
hex-encoded strings, so the check reads the first two hex digits. -/
def isOpReturnScriptPubkey (scriptPkHex : String) : Bool :=
  scriptPkHex.data.take 2 == ['6', 'a']

/-- The `status` field of a remote UTXO record (`BtcApiUtxo` of the service
package): confirmation flag and confirmation block height. -/
structure ApiUtxoStatus where
  confirmed : Bool
  block_height : Int
  deriving DecidableEq, Repr

/-- A remote UTXO record as returned by the service's address/unspent
listing (`BtcApiUtxo`). -/
structure ApiUtxo where
  txid : String
  vout : Nat
  value : Nat
  status : ApiUtxoStatus
  deriving DecidableEq, Repr

/-- The `Utxo` value type (`transaction/utxo.ts`): an output together with
address information.  `scriptpubkey_address` can be absent in remote data, so
the address is an `Option`; `addressType` is the enum produced by the address
utilities, embedded as `Nat`. -/
structure Utxo where
  txid : String
  vout : Nat
  value : Nat
  scriptPk : String
  address : Option String
  addressType : Nat
  deriving DecidableEq, Repr

/-- The `Output` value type (`transaction/utxo.ts`): a bare output with no
address information (the data-carrier case in `getOutput`). -/
structure Output where
  txid : String
  vout : Nat
  value : Nat
  scriptPk : String
  deriving DecidableEq, Repr

/-- Result entity of `getOutput`: either a bare `Output` (data-carrier) or a
spendable `Utxo`.  In TypeScript the two cases are told apart by the
`'address' in output` membership test; here they are constructors. -/
inductive OutputOrUtxo where
  | plain (o : Output)
  | spendable (u : Utxo)
  deriving DecidableEq, Repr

/-- One entry of a remote transaction's `vout` array (the fields `source.ts`
reads). -/
structure TxVout where
  scriptpubkey : String
  scriptpubkey_address : Option String
  value : Nat
  deriving DecidableEq, Repr

/-- A remote transaction's `status` field (the fields `source.ts` reads). -/
structure TxStatus where
  confirmed : Bool
  deriving DecidableEq, Repr

/-- A remote transaction (the fields `source.ts` reads). -/
structure BtcTx where
  vout : List TxVout
  status : TxStatus
  deriving DecidableEq, Repr

/-- The parameters `collectSatoshi` forwards to the service's UTXO listing
(`BtcApiUtxoParams`). -/
structure BtcApiUtxoParams where
  only_confirmed : Option Bool := none
  min_satoshi : Option Nat := none
  no_cache : Option Bool := none
  deriving DecidableEq, Repr

/-- The remote `BtcAssetsApi` service, embedded as an oracle: a record of
total functions giving the data each remote call would return.  `A` is the
payload type of RGB++ asset-binding records (their contents are never
inspected; only emptiness of the list matters).  An absent transaction is
`none`. -/
structure Service (A : Type) where
  getBtcTransaction : String → Option BtcTx
  getBtcUtxos : String → BtcApiUtxoParams → List ApiUtxo
  getRgbppAssetsByBtcUtxo : String → Nat → List A

/-- The address utilities imported by `source.ts` (`address.ts`, not among
the provided sources), embedded as abstract total functions: hex script
derivation for an address, and the address-type classifier.  `getAddressType`
takes an `Option` because `getOutput` applies it to the possibly-absent
`scriptpubkey_address` of remote data. -/
structure AddressEnv where
  addressToScriptPublicKeyHex : String → String
  getAddressType : Option String → Nat

/-- Association-list lookup for the cache state (first binding wins, as in a
map that never stores a key twice). -/
def cacheLookup (k : String) : List (String × α) → Option α
  | [] => none
  | (k', v) :: rest => if k' = k then some v else cacheLookup k rest

/-- Modelled from the spec: `DataCache.getOrCompute` (`query/cache.ts`, not
among the provided sources), sequential view.  "if `key` is absent, always
invoke `producer` fresh (no caching).  If present and unseen, invoke
`producer` once and store the result under that key; all later callers using
the same key receive the single computed value without re-invoking
`producer`."  Returns the value, the new cache state, and how many times the
producer was invoked (0 or 1). -/
def getOrCompute (cache : List (String × α)) (key : Option String) (producer : Unit → α) :
    α × List (String × α) × Nat :=
  match key with
  | none => (producer (), cache, 1)
  | some k =>
    match cacheLookup k cache with
    | some v => (v, cache, 0)
    | none =>
      let v := producer ()
      (v, (k, v) :: cache, 1)

/-- The internal cache key for the per-output asset-binding lookup in
`collectSatoshi`: the template string `txid:vout`. -/
def utxoKey (txid : String) (vout : Nat) : String :=
  txid ++ ":" ++ toString vout

/-- The producer passed to the asset-binding cache in `collectSatoshi`:
`Array.isArray(assets) && assets.length > 0` (the oracle always returns a
list, so the array check is true by typing). -/
def hasRgbppAssetsGetter (svc : Service A) (txid : String) (vout : Nat) : Bool :=
  !(svc.getRgbppAssetsByBtcUtxo txid vout).isEmpty

/-- The state of the `DataCache` owned by a `DataSource`: the UTXO-list cache
used by `optionalCacheUtxos` and the asset-binding cache used by
`optionalCacheHasRgbppAssets`.  A fresh `DataSource` starts with both
empty. -/
structure DataCacheState where
  utxosCache : List (String × List Utxo) := []
  hasAssetsCache : List (String × Bool) := []

/-- The props record of `collectSatoshi`. -/
structure CollectProps where
  address : String
  targetAmount : Nat
  minUtxoSatoshi : Option Nat := none
  allowInsufficient : Bool := false
  onlyNonRgbppUtxos : Bool := false
  onlyConfirmedUtxos : Option Bool := none
  noAssetsApiCache : Option Bool := none
  internalCacheKey : Option String := none
  excludeUtxos : List (String × Nat) := []

/-- The success result of `collectSatoshi`. -/
structure CollectResult where
  utxos : List Utxo
  satoshi : Nat
  exceedSatoshi : Int
  deriving DecidableEq, Repr

/-- The sort comparator of `getUtxos`, as a boolean "may come first"
relation: the TypeScript comparator returns `aH - bH` when the block heights
differ and `a.vout - b.vout` otherwise, so `a` may precede `b` exactly when
`a`'s height is smaller, or the heights are equal and `a.vout ≤ b.vout`. -/
def utxoSortLE (a b : ApiUtxo) : Bool :=
  if a.status.block_height ≠ b.status.block_height then
    decide (a.status.block_height < b.status.block_height)
  else
    decide (a.vout ≤ b.vout)

/-- `DataSource.getUtxos`: fetch the address's unspent records, sort them
(stably, as JavaScript `Array.prototype.sort`) by the comparator above, and
map each record to a `Utxo`, deriving script and address type locally from
the address. -/
def getUtxos (env : AddressEnv) (svc : Service A) (address : String)
    (params : BtcApiUtxoParams) : List Utxo :=
  let utxos := svc.getBtcUtxos address params
  let scriptPk := env.addressToScriptPublicKeyHex address
  ((utxos.mergeSort utxoSortLE).map fun row =>
    { address := some address
      scriptPk := scriptPk
      txid := row.txid
      vout := row.vout
      value := row.value
      addressType := env.getAddressType (some address) })

/-- `DataSource.getOutput`: fetch the transaction, soft-return `none` when it
is absent, fail when confirmation is required but missing, soft-return `none`
when the requested `vout` index is absent, and classify the output as a bare
`Output` (data-carrier script) or a spendable `Utxo`. -/
def getOutput (env : AddressEnv) (svc : Service A) (hash : String) (index : Nat)
    (requireConfirmed : Bool) : Except TxBuildError (Option OutputOrUtxo) :=
  let txId := remove0x hash
  match svc.getBtcTransaction txId with
  | none => .ok none
  | some tx =>
    if requireConfirmed && !tx.status.confirmed then
      .error (TxBuildError.withComment .UNCONFIRMED_UTXO (outpointComment hash index))
    else
      match tx.vout[index]? with
      | none => .ok none
      | some vout =>
        if isOpReturnScriptPubkey vout.scriptpubkey then
          .ok (some (.plain
            { txid := txId, vout := index, value := vout.value, scriptPk := vout.scriptpubkey }))
        else
          .ok (some (.spendable
            { txid := txId
              vout := index
              value := vout.value
              scriptPk := vout.scriptpubkey
              address := vout.scriptpubkey_address
              addressType := env.getAddressType vout.scriptpubkey_address }))

/-- `DataSource.getUtxo`: `getOutput`, then fail with `UNSPENDABLE_OUTPUT`
when the resolved entity lacks an address (the `'address' in output`
test). -/
def getUtxo (env : AddressEnv) (svc : Service A) (hash : String) (index : Nat)
    (requireConfirmed : Bool) : Except TxBuildError (Option Utxo) :=
  match getOutput env svc hash index requireConfirmed with
  | .error e => .error e
  | .ok none => .ok none
  | .ok (some (.plain _)) =>
    .error (TxBuildError.withComment .UNSPENDABLE_OUTPUT (outpointComment hash index))
  | .ok (some (.spendable u)) => .ok (some u)

/-- `DataSource.isTransactionConfirmed`: reads `tx.status.confirmed` with no
not-found guard.  When the service reports the transaction absent, the
TypeScript field access `tx.status` faults (a TypeError on `undefined`);
that fault is embedded as `none`, a defined boolean as `some`. -/
def isTransactionConfirmed (svc : Service A) (hash : String) : Option Bool :=
  match svc.getBtcTransaction (remove0x hash) with
  | none => none
  | some tx => some tx.status.confirmed

/-- The exclusion-list test of the candidate loop (`source.ts` lines
147-153): when the exclusion list is non-empty, search it for an entry whose
`(txid, vout)` both match the candidate exactly. -/
def isExcluded (exclude : List (String × Nat)) (u : Utxo) : Bool :=
  exclude.length > 0 && (exclude.find? fun e => e.1 == u.txid && e.2 == u.vout).isSome

/-- The candidate loop of `collectSatoshi`, one step per candidate, in source
order: stop once the accumulated amount reaches the target; skip candidates
found in the exclusion list (exact `(txid, vout)` match); when
`onlyNonRgbppUtxos` is set, resolve the asset-binding flag through the cache
and skip bound candidates; otherwise accept the candidate.  Returns the
accepted candidates, the accumulated amount, and the final asset cache. -/
def collectGo (target : Nat) (exclude : List (String × Nat)) (onlyNonRgbpp : Bool)
    (svc : Service A) :
    List Utxo → List Utxo → Nat → List (String × Bool) → List Utxo × Nat × List (String × Bool)
  | [], collected, amt, c => (collected, amt, c)
  | u :: rest, collected, amt, c =>
    if amt ≥ target then
      (collected, amt, c)
    else if isExcluded exclude u then
      collectGo target exclude onlyNonRgbpp svc rest collected amt c
    else if onlyNonRgbpp then
      let r := getOrCompute c (some (utxoKey u.txid u.vout))
        (fun _ => hasRgbppAssetsGetter svc u.txid u.vout)
      if r.1 then
        collectGo target exclude onlyNonRgbpp svc rest collected amt r.2.1
      else
        collectGo target exclude onlyNonRgbpp svc rest (collected ++ [u]) (amt + u.value) r.2.1
    else
      collectGo target exclude onlyNonRgbpp svc rest (collected ++ [u]) (amt + u.value) c

/-- `DataSource.collectSatoshi`: resolve the candidate list through
`optionalCacheUtxos` (`getOrCompute` keyed by `internalCacheKey`), run the
candidate loop, and either fail with `INSUFFICIENT_UTXO` (carrying the
expected and actual amounts) or return the selection with its total and
surplus.  Returns the outcome, the new cache state, and how many times the
remote UTXO listing was invoked by this call (0 or 1). -/
def collectSatoshi (env : AddressEnv) (svc : Service A) (cache : DataCacheState)
    (props : CollectProps) : Except TxBuildError CollectResult × DataCacheState × Nat :=
  let fetch := getOrCompute cache.utxosCache props.internalCacheKey fun _ =>
    getUtxos env svc props.address
      { only_confirmed := props.onlyConfirmedUtxos
        min_satoshi := props.minUtxoSatoshi
        no_cache := props.noAssetsApiCache }
  let loop := collectGo props.targetAmount props.excludeUtxos props.onlyNonRgbppUtxos svc
    fetch.1 [] 0 cache.hasAssetsCache
  let cache' : DataCacheState := { utxosCache := fetch.2.1, hasAssetsCache := loop.2.2 }
  let amt := loop.2.1
  let tgt := props.targetAmount
  if !props.allowInsufficient && amt < tgt then
    (.error (TxBuildError.withComment .INSUFFICIENT_UTXO (insufficientComment tgt amt)),
      cache', fetch.2.2)
  else
    (.ok { utxos := loop.1, satoshi := amt, exceedSatoshi := (amt : Int) - (tgt : Int) },
      cache', fetch.2.2)

/-- Decimal evaluation of a digit string (most significant digit first). -/
def digitsVal (l : List Char) : Nat :=
  l.foldl (fun a c => a * 10 + (c.toNat - 48)) 0

/-! Specification-side view of the candidate loop: the filtered candidate
list, and its shortest prefix whose cumulative value reaches the target. -/

/-- Total value of a list of UTXOs. -/
def sumValues (l : List Utxo) : Nat := (l.map Utxo.value).sum

/-- A candidate survives both filters: it is not in the exclusion list, and —
when asset exclusion is enabled — the service's asset-binding lookup for its
outpoint is empty. -/
def keepUtxo (svc : Service A) (exclude : List (String × Nat)) (onlyNonRgbpp : Bool)
    (u : Utxo) : Bool :=
  !isExcluded exclude u && !(onlyNonRgbpp && hasRgbppAssetsGetter svc u.txid u.vout)

/-- The greedy prefix of a list for a remaining target `t`: keep taking
elements while the amount still to cover is positive.  (`Nat` subtraction
saturates, so `t = 0` is exactly "accumulated ≥ original target".) -/
def greedyPrefix : List Utxo → Nat → List Utxo
  | [], _ => []
  | u :: rest, t => if t = 0 then [] else u :: greedyPrefix rest (t - u.value)

/-- Coherence of the asset-binding cache with the service oracle: every
stored binding flag under a `txid:vout` key is the flag the oracle computes
for that outpoint.  A fresh (empty) cache is coherent, and the loop preserves
coherence. -/
def CacheCoherent (svc : Service A) (c : List (String × Bool)) : Prop :=
  ∀ k b, cacheLookup k c = some b →
    ∀ t n, k = utxoKey t n → b = hasRgbppAssetsGetter svc t n

/-! Concurrency model for the single-flight contract of the cache.  The spec
(§4.5, §5) requires that two *concurrent* calls of `getOrCompute` for the
same unseen key coalesce into one producer invocation, both callers awaiting
the one outcome.  The sequential embedding `getOrCompute` cannot express an
interleaving, so the contract is modelled as a small transition system over
the shared cache entry of one key, with two callers and a deterministic
producer, and verified over every interleaving. -/

/-- Modelled from the spec: the program counter of one caller of
`getOrCompute` in the single-flight model: not yet started; waiting on
another caller's in-flight computation; computing (owns the pending entry);
finished. -/
inductive SFPC where
  | start
  | waiting
  | computing
  | done
  deriving DecidableEq, Repr

/-- Modelled from the spec: the shared state of two concurrent
`getOrCompute` callers for one unseen key: the cache entry (`none` absent,
`some none` pending in-flight, `some (some w)` resolved to `w`), each
caller's program counter and received result, and the number of producer
invocations so far. -/
structure SFState (α : Type) where
  entry : Option (Option α)
  pcA : SFPC
  pcB : SFPC
  resA : Option α
  resB : Option α
  calls : Nat

/-- The initial single-flight state: entry absent, both callers at start, no
producer invocations. -/
def sfInit : SFState α :=
  { entry := none, pcA := .start, pcB := .start, resA := none, resB := none, calls := 0 }

/-- Modelled from the spec: one atomic step of a single caller.  At start,
the caller checks the entry: resolved means finish with the stored value;
pending means wait; absent means register the pending entry and become the
computing caller.  The computing caller invokes the producer (counted) and
resolves the entry.  A waiting caller finishes once the entry resolves. -/
def sfLocalStep (v : α) (entry : Option (Option α)) (pc : SFPC) (res : Option α)
    (calls : Nat) : Option (Option α) × SFPC × Option α × Nat :=
  match pc with
  | .start =>
    match entry with
    | none => (some none, .computing, res, calls)
    | some none => (some none, .waiting, res, calls)
    | some (some w) => (some (some w), .done, some w, calls)
  | .computing => (some (some v), .done, some v, calls + 1)
  | .waiting =>
    match entry with
    | some (some w) => (entry, .done, some w, calls)
    | _ => (entry, pc, res, calls)
  | .done => (entry, pc, res, calls)

/-- One scheduler step: `who = true` steps caller A, otherwise caller B. -/
def sfStep (v : α) (who : Bool) (s : SFState α) : SFState α :=
  if who then
    let r := sfLocalStep v s.entry s.pcA s.resA s.calls
    { s with entry := r.1, pcA := r.2.1, resA := r.2.2.1, calls := r.2.2.2 }
  else
    let r := sfLocalStep v s.entry s.pcB s.resB s.calls
    { s with entry := r.1, pcB := r.2.1, resB := r.2.2.1, calls := r.2.2.2 }

/-- Run the two callers under an arbitrary interleaving schedule. -/
def sfRun (v : α) : List Bool → SFState α → SFState α
  | [], s => s
  | who :: sched, s => sfRun v sched (sfStep v who s)

/-- The single-flight invariant: at most one producer invocation ever; an
absent entry means nothing has happened; a pending entry is owned by exactly
one computing caller and predates any invocation; a resolved entry holds the
producer's value and witnesses exactly one invocation; finished callers hold
the producer's value. -/
def SFInv (v : α) (s : SFState α) : Prop :=
  s.calls ≤ 1
  ∧ (s.entry = none → s.calls = 0 ∧ s.pcA = .start ∧ s.pcB = .start)
  ∧ (s.pcA = .computing → s.entry = some none)
  ∧ (s.pcB = .computing → s.entry = some none)
  ∧ (s.entry = some none → s.calls = 0 ∧ (s.pcA = .computing ∨ s.pcB = .computing)
      ∧ ¬(s.pcA = .computing ∧ s.pcB = .computing) ∧ s.pcA ≠ .done ∧ s.pcB ≠ .done)
  ∧ (∀ w, s.entry = some (some w) → w = v ∧ s.calls = 1 ∧ s.pcA ≠ .computing ∧ s.pcB ≠ .computing)
  ∧ (s.pcA = .done → s.resA = some v)
  ∧ (s.pcB = .done → s.resB = some v)
  ∧ ((s.pcA = .done ∨ s.pcB = .done) → s.entry = some (some v))

/-! Named views of one `collectSatoshi` call, used to state the claims: the
candidate list the call resolves (through the cache), its filtered form, and
the greedy selection. -/

/-- The candidate UTXO list one `collectSatoshi` call resolves: the cached
list under `internalCacheKey` if present, else a fresh `getUtxos` fetch. -/
def fetchedUtxos (env : AddressEnv) (svc : Service A) (cache : DataCacheState)
    (props : CollectProps) : List Utxo :=
  (getOrCompute cache.utxosCache props.internalCacheKey fun _ =>
    getUtxos env svc props.address
      { only_confirmed := props.onlyConfirmedUtxos
        min_satoshi := props.minUtxoSatoshi
        no_cache := props.noAssetsApiCache }).1

/-- The candidates surviving the exclusion-list filter and (when enabled) the
asset-binding filter, in candidate order. -/
def filteredCandidates (env : AddressEnv) (svc : Service A) (cache : DataCacheState)
    (props : CollectProps) : List Utxo :=
  (fetchedUtxos env svc cache props).filter
    (keepUtxo svc props.excludeUtxos props.onlyNonRgbppUtxos)

/-- The selection of one `collectSatoshi` call: the greedy prefix of the
filtered candidates for the target amount. -/
def selectionOf (env : AddressEnv) (svc : Service A) (cache : DataCacheState)
    (props : CollectProps) : List Utxo :=
  greedyPrefix (filteredCandidates env svc cache props) props.targetAmount

/-! Concrete example data: the three candidates of the spec's worked example
(§8): heights 100, 100, 90, vouts 0, 1, 0, values 5000, 3000, 2000. -/

/-- The spec's example remote candidate records. -/
def exCandidates : List ApiUtxo :=
  [ { txid := "a", vout := 0, value := 5000, status := { confirmed := true, block_height := 100 } }
  , { txid := "b", vout := 1, value := 3000, status := { confirmed := true, block_height := 100 } }
  , { txid := "c", vout := 0, value := 2000, status := { confirmed := true, block_height := 90 } } ]

/-- A concrete address environment for the examples. -/
def exEnv : AddressEnv :=
  { addressToScriptPublicKeyHex := fun _ => "00", getAddressType := fun _ => 0 }

/-- A concrete service oracle for the examples: the example candidates, no
transactions, no asset bindings. -/
def exService : Service Unit :=
  { getBtcTransaction := fun _ => none
    getBtcUtxos := fun _ _ => exCandidates
    getRgbppAssetsByBtcUtxo := fun _ _ => [] }

/-- The `Utxo` that `getUtxos` under `exEnv` produces for a given example
candidate. -/
def exUtxo (t : String) (v val : Nat) : Utxo :=
  { txid := t, vout := v, value := val, scriptPk := "00"
    address := some "addr", addressType := 0 }

/-- The spec's example selection request: target 6000, no exclusions, all
modifiers at their defaults. -/
def exProps : CollectProps := { address := "addr", targetAmount := 6000 }

/-- A concrete service oracle whose asset-binding lookup reports a binding
for the outpoint ("c", 0) and nothing else. -/
def exServiceRgb : Service Unit :=
  { getBtcTransaction := fun _ => none
    getBtcUtxos := fun _ _ => exCandidates
    getRgbppAssetsByBtcUtxo := fun t v => if t = "c" ∧ v = 0 then [()] else [] }

/-- A confirmed example transaction with one ordinary (addressed) output. -/
def exTxConfirmed : BtcTx :=
  { vout := [{ scriptpubkey := "51", scriptpubkey_address := some "addr", value := 1000 }]
    status := { confirmed := true } }

/-- An unconfirmed example transaction with one ordinary output. -/
def exTxUnconfirmed : BtcTx :=
  { vout := [{ scriptpubkey := "51", scriptpubkey_address := some "addr", value := 1000 }]
    status := { confirmed := false } }

/-- A confirmed example transaction whose only output is a data-carrier
(OP_RETURN) output with no address. -/
def exTxOpReturn : BtcTx :=
  { vout := [{ scriptpubkey := "6a24aa21a9ed", scriptpubkey_address := none, value := 0 }]
    status := { confirmed := true } }

/-- A concrete service oracle holding the three example transactions under
ids "t1" (confirmed), "t2" (unconfirmed) and "t3" (data-carrier). -/
def exServiceTx : Service Unit :=
  { getBtcTransaction := fun id =>
      if id = "t1" then some exTxConfirmed
      else if id = "t2" then some exTxUnconfirmed
      else if id = "t3" then some exTxOpReturn
      else none
    getBtcUtxos := fun _ _ => []
    getRgbppAssetsByBtcUtxo := fun _ _ => [] }

/-! Auxiliary facts about the decimal rendering `Nat.repr` used by the cache
key template `txid:vout`: the digits never contain the separator character,
and the rendering is injective.  Together these make `utxoKey` injective, so
a cache entry written for one outpoint can never be read back for another. -/

/-- No decimal (or hex) digit character is the key separator. -/
theorem digitChar_ne_colon (m : Nat) : Nat.digitChar m ≠ ':' := by
  rcases Nat.lt_or_ge m 16 with h | h
  · interval_cases m <;> decide
  · unfold Nat.digitChar
    repeat rw [if_neg (by omega)]
    decide

/-- The digit accumulator of `Nat.toDigitsCore` never introduces the key
separator. -/
theorem toDigitsCore_colon_free (fuel : Nat) :
    ∀ (n : Nat) (ds : List Char), ':' ∉ ds → ':' ∉ Nat.toDigitsCore 10 fuel n ds := by
  induction fuel with
  | zero => intro n ds h; simpa [Nat.toDigitsCore] using h
  | succ fuel ih =>
    intro n ds h
    simp only [Nat.toDigitsCore]
    split
    · intro hmem
      rcases List.mem_cons.mp hmem with hc | hc
      · exact digitChar_ne_colon (n % 10) hc.symm
      · exact h hc
    · exact ih (n / 10) (Nat.digitChar (n % 10) :: ds) (by
        intro hmem
        rcases List.mem_cons.mp hmem with hc | hc
        · exact digitChar_ne_colon (n % 10) hc.symm
        · exact h hc)

/-- The decimal rendering of a natural number never contains the key
separator. -/
theorem repr_colon_free (n : Nat) : ':' ∉ (Nat.repr n).data :=
  toDigitsCore_colon_free (n + 1) n [] (by simp)

/-- Fuel irrelevance for `Nat.toDigitsCore`: with enough fuel the
accumulator form is the digits of `n` prepended to the accumulator. -/
theorem toDigitsCore_fuel_append (n : Nat) :
    ∀ (fuel : Nat) (ds : List Char), n < fuel →
      Nat.toDigitsCore 10 fuel n ds = Nat.toDigits 10 n ++ ds := by
  induction n using Nat.strong_induction_on with
  | _ n ih =>
    intro fuel ds hf
    match fuel, hf with
    | fuel + 1, hf =>
      rw [Nat.toDigits]
      simp only [Nat.toDigitsCore]
      by_cases h : n / 10 = 0
      · simp [h]
      · have hdiv : n / 10 < n := Nat.div_lt_self (by omega) (by omega)
        have h₁ : Nat.toDigitsCore 10 fuel (n / 10) (Nat.digitChar (n % 10) :: ds)
            = Nat.toDigits 10 (n / 10) ++ (Nat.digitChar (n % 10) :: ds) :=
          ih (n / 10) hdiv fuel _ (by omega)
        have h₂ : Nat.toDigitsCore 10 n (n / 10) [Nat.digitChar (n % 10)]
            = Nat.toDigits 10 (n / 10) ++ [Nat.digitChar (n % 10)] :=
          ih (n / 10) hdiv n _ (by omega)
        simp [h, h₁, h₂]

/-- Peeling the last digit off `Nat.toDigits`. -/
theorem toDigits_split (n : Nat) (h : n / 10 ≠ 0) :
    Nat.toDigits 10 n = Nat.toDigits 10 (n / 10) ++ [Nat.digitChar (n % 10)] := by
  conv_lhs => rw [Nat.toDigits]
  simp only [Nat.toDigitsCore]
  rw [if_neg h]
  exact toDigitsCore_fuel_append (n / 10) n _ (by omega)

/-- `digitsVal` consumes a final digit as the least significant one. -/
theorem digitsVal_append (xs : List Char) (c : Char) :
    digitsVal (xs ++ [c]) = digitsVal xs * 10 + (c.toNat - 48) := by
  simp [digitsVal, List.foldl_append]

/-- Code-point value of a decimal digit character. -/
theorem digitChar_toNat (m : Nat) (h : m < 10) : (Nat.digitChar m).toNat - 48 = m := by
  interval_cases m <;> decide

/-- `digitsVal` inverts `Nat.toDigits` at base 10. -/
theorem digitsVal_toDigits (n : Nat) : digitsVal (Nat.toDigits 10 n) = n := by
  induction n using Nat.strong_induction_on with
  | _ n ih =>
    by_cases h : n / 10 = 0
    · have hlt : n < 10 := by omega
      have hform : Nat.toDigits 10 n = [Nat.digitChar (n % 10)] := by
        rw [Nat.toDigits, Nat.toDigitsCore]
        simp [h]
      rw [hform]
      have : Nat.digitChar (n % 10) = Nat.digitChar n := by rw [Nat.mod_eq_of_lt hlt]
      rw [this]
      have hd := digitChar_toNat n hlt
      simp [digitsVal, hd]
    · have hdiv : n / 10 < n := Nat.div_lt_self (by omega) (by omega)
      rw [toDigits_split n h, digitsVal_append, ih (n / 10) hdiv,
        digitChar_toNat (n % 10) (Nat.mod_lt n (by omega))]
      omega

/-- The decimal rendering of natural numbers is injective. -/
theorem natRepr_inj {a b : Nat} (h : Nat.repr a = Nat.repr b) : a = b := by
  have hdata : Nat.toDigits 10 a = Nat.toDigits 10 b := congrArg String.data h
  have := congrArg digitsVal hdata
  rwa [digitsVal_toDigits, digitsVal_toDigits] at this

/-- Splitting two equal character lists at a separator that occurs in neither
right part. -/
theorem append_colon_inj :
    ∀ (l₁ l₂ r₁ r₂ : List Char), ':' ∉ r₁ → ':' ∉ r₂ →
      l₁ ++ ':' :: r₁ = l₂ ++ ':' :: r₂ → l₁ = l₂ ∧ r₁ = r₂
  | [], [], r₁, r₂, _, _, h => by
    simp only [List.nil_append, List.cons.injEq] at h
    exact ⟨rfl, h.2⟩
  | [], c :: l₂, r₁, r₂, h₁, _, h => by
    simp only [List.nil_append, List.cons_append, List.cons.injEq] at h
    exact absurd (h.2 ▸ List.mem_append_right l₂ (List.mem_cons_self ':' r₂)) h₁
  | c :: l₁, [], r₁, r₂, _, h₂, h => by
    simp only [List.nil_append, List.cons_append, List.cons.injEq] at h
    exact absurd (h.2.symm ▸ List.mem_append_right l₁ (List.mem_cons_self ':' r₁)) h₂
  | c :: l₁, d :: l₂, r₁, r₂, h₁, h₂, h => by
    simp only [List.cons_append, List.cons.injEq] at h
    have hrec := append_colon_inj l₁ l₂ r₁ r₂ h₁ h₂ h.2
    exact ⟨by rw [h.1, hrec.1], hrec.2⟩

/-- The cache key template `txid:vout` is injective: distinct outpoints get
distinct keys (the rendered index contains no separator, so the split at the
last separator is unambiguous). -/
theorem utxoKey_inj {t₁ t₂ : String} {n₁ n₂ : Nat} (h : utxoKey t₁ n₁ = utxoKey t₂ n₂) :
    t₁ = t₂ ∧ n₁ = n₂ := by
  have hd : t₁.data ++ ':' :: (Nat.repr n₁).data = t₂.data ++ ':' :: (Nat.repr n₂).data := by
    have := congrArg String.data h
    simpa [utxoKey, toString, String.data_append] using this
  have hsplit := append_colon_inj t₁.data t₂.data (Nat.repr n₁).data (Nat.repr n₂).data
    (repr_colon_free n₁) (repr_colon_free n₂) hd
  exact ⟨String.ext hsplit.1, natRepr_inj (String.ext hsplit.2)⟩

/-- The empty asset cache is coherent with any service. -/
theorem cacheCoherent_nil (svc : Service A) : CacheCoherent svc [] := by
  intro k b h
  simp [cacheLookup] at h

/-- Exhausted target: the greedy prefix is empty. -/
theorem greedyPrefix_zero (l : List Utxo) : greedyPrefix l 0 = [] := by
  cases l <;> simp [greedyPrefix]

/-- The greedy prefix is a prefix. -/
theorem greedyPrefix_take (l : List Utxo) (t : Nat) :
    greedyPrefix l t = l.take (greedyPrefix l t).length := by
  induction l generalizing t with
  | nil => simp [greedyPrefix]
  | cons u rest ih =>
    by_cases h : t = 0
    · simp [greedyPrefix, h]
    · simp only [greedyPrefix, if_neg h, List.length_cons, List.take_succ_cons]
      exact congrArg (u :: ·) (ih (t - u.value))

/-- Minimality: every strictly shorter prefix has cumulative value below the
target. -/
theorem greedyPrefix_min (l : List Utxo) (t m : Nat)
    (hm : m < (greedyPrefix l t).length) : sumValues (l.take m) < t := by
  induction l generalizing t m with
  | nil => simp [greedyPrefix] at hm
  | cons u rest ih =>
    by_cases h : t = 0
    · simp [greedyPrefix, h] at hm
    · simp only [greedyPrefix, if_neg h, List.length_cons] at hm
      match m with
      | 0 => simpa [sumValues] using Nat.pos_of_ne_zero h
      | m + 1 =>
        have hm' : m < (greedyPrefix rest (t - u.value)).length := by omega
        have := ih (t - u.value) m hm'
        have hv : u.value < t := by
          by_contra hge
          rw [show t - u.value = 0 by omega, greedyPrefix_zero] at hm'
          simp at hm'
        simp only [List.take_succ_cons, sumValues, List.map_cons, List.sum_cons]
        simp only [sumValues] at this
        omega

/-- Sufficiency: when the whole list can cover the target, the greedy prefix
does. -/
theorem greedyPrefix_sum_ge (l : List Utxo) (t : Nat) (h : t ≤ sumValues l) :
    t ≤ sumValues (greedyPrefix l t) := by
  induction l generalizing t with
  | nil => simpa [greedyPrefix] using h
  | cons u rest ih =>
    by_cases h0 : t = 0
    · simp [h0]
    · simp only [sumValues, List.map_cons, List.sum_cons] at h
      have := ih (t - u.value) (by simp only [sumValues]; omega)
      simp only [greedyPrefix, if_neg h0, sumValues, List.map_cons, List.sum_cons]
      simp only [sumValues] at this
      omega

/-- Exhaustion: when even the whole list cannot cover the target, the greedy
prefix is the whole list. -/
theorem greedyPrefix_all (l : List Utxo) (t : Nat) (h : sumValues l < t) :
    greedyPrefix l t = l := by
  induction l generalizing t with
  | nil => simp [greedyPrefix]
  | cons u rest ih =>
    have h0 : t ≠ 0 := by intro h0; rw [h0] at h; omega
    simp only [sumValues, List.map_cons, List.sum_cons] at h
    simp only [greedyPrefix, if_neg h0]
    exact congrArg (u :: ·) (ih (t - u.value) (by simp only [sumValues]; omega))

/-- Unfolding `sumValues` over a cons. -/
theorem sumValues_cons (u : Utxo) (l : List Utxo) :
    sumValues (u :: l) = u.value + sumValues l := by
  simp [sumValues]

/-- Inserting the oracle's own flag for an outpoint keeps the asset cache
coherent (uses injectivity of the key template). -/
theorem cacheCoherent_insert (svc : Service A) {c : List (String × Bool)}
    (hc : CacheCoherent svc c) (t : String) (n : Nat) :
    CacheCoherent svc ((utxoKey t n, hasRgbppAssetsGetter svc t n) :: c) := by
  intro k b hlook t' n' hk
  simp only [cacheLookup] at hlook
  split at hlook
  · rename_i heq
    obtain rfl : hasRgbppAssetsGetter svc t n = b := by
      simpa using hlook
    obtain ⟨rfl, rfl⟩ : t = t' ∧ n = n' := utxoKey_inj (heq.trans hk)
    rfl
  · exact hc k b hlook t' n' hk

/-- Characterization of the candidate loop: starting from a coherent asset
cache, the loop extends the accumulator with precisely the greedy prefix of
the filtered remainder for the remaining target, adds its value to the
accumulated amount, and leaves the asset cache coherent. -/
theorem collectGo_eq (target : Nat) (exclude : List (String × Nat)) (onr : Bool)
    (svc : Service A) (l : List Utxo) :
    ∀ (acc : List Utxo) (amt : Nat) (c : List (String × Bool)), CacheCoherent svc c →
      (collectGo target exclude onr svc l acc amt c).1
          = acc ++ greedyPrefix (l.filter (keepUtxo svc exclude onr)) (target - amt)
        ∧ (collectGo target exclude onr svc l acc amt c).2.1
          = amt + sumValues (greedyPrefix (l.filter (keepUtxo svc exclude onr)) (target - amt))
        ∧ CacheCoherent svc (collectGo target exclude onr svc l acc amt c).2.2 := by
  induction l with
  | nil =>
    intro acc amt c hc
    simp [collectGo, greedyPrefix, sumValues, hc]
  | cons u rest ih =>
    intro acc amt c hc
    by_cases hstop : amt ≥ target
    · have ht : target - amt = 0 := by omega
      simp [collectGo, if_pos hstop, ht, greedyPrefix_zero, sumValues, hc]
    · have htne : target - amt ≠ 0 := by omega
      simp only [collectGo, if_neg hstop]
      by_cases hex : isExcluded exclude u = true
      · rw [if_pos hex]
        have hkeep : keepUtxo svc exclude onr u = false := by
          simp [keepUtxo, hex]
        rw [List.filter_cons_of_neg (by simp [hkeep])]
        exact ih acc amt c hc
      · rw [if_neg hex]
        replace hex : isExcluded exclude u = false := by
          simpa using hex
        by_cases honr : onr = true
        · rw [if_pos honr]
          simp only [getOrCompute]
          rcases hlook : cacheLookup (utxoKey u.txid u.vout) c with _ | b
          · -- cache miss: compute, insert, branch on the computed flag
            simp only [hlook]
            have hc' := cacheCoherent_insert svc hc u.txid u.vout
            rcases hA : hasRgbppAssetsGetter svc u.txid u.vout with _ | _
            · -- no assets: accept
              have hkeep : keepUtxo svc exclude onr u = true := by
                simp [keepUtxo, hex, hA]
              rw [List.filter_cons_of_pos (by simp [hkeep])]
              simp only [Bool.false_eq_true, if_false]
              rw [hA] at hc'
              obtain ⟨h1, h2, h3⟩ := ih (acc ++ [u]) (amt + u.value) _ hc'
              have hsub : target - amt - u.value = target - (amt + u.value) := by omega
              refine ⟨?_, ?_, h3⟩
              · rw [h1, greedyPrefix, if_neg htne, hsub]
                simp
              · rw [h2, greedyPrefix, if_neg htne, hsub, sumValues_cons]
                omega
            · -- has assets: skip
              have hkeep : keepUtxo svc exclude onr u = false := by
                simp [keepUtxo, honr, hA]
              rw [List.filter_cons_of_neg (by simp [hkeep])]
              simp only [if_true]
              rw [hA] at hc'
              exact ih acc amt _ hc'
          · -- cache hit: the stored flag is the oracle's flag
            simp only [hlook]
            have hb : b = hasRgbppAssetsGetter svc u.txid u.vout :=
              hc _ b hlook u.txid u.vout rfl
            rcases hA : hasRgbppAssetsGetter svc u.txid u.vout with _ | _
            · have hbf : b = false := by rw [hb, hA]
              subst hbf
              have hkeep : keepUtxo svc exclude onr u = true := by
                simp [keepUtxo, hex, hA]
              rw [List.filter_cons_of_pos (by simp [hkeep])]
              simp only [Bool.false_eq_true, if_false]
              obtain ⟨h1, h2, h3⟩ := ih (acc ++ [u]) (amt + u.value) c hc
              have hsub : target - amt - u.value = target - (amt + u.value) := by omega
              refine ⟨?_, ?_, h3⟩
              · rw [h1, greedyPrefix, if_neg htne, hsub]
                simp
              · rw [h2, greedyPrefix, if_neg htne, hsub, sumValues_cons]
                omega
            · have hbt : b = true := by rw [hb, hA]
              subst hbt
              have hkeep : keepUtxo svc exclude onr u = false := by
                simp [keepUtxo, honr, hA]
              rw [List.filter_cons_of_neg (by simp [hkeep])]
              simp only [if_true]
              exact ih acc amt c hc
        · rw [if_neg honr]
          replace honr : onr = false := by simpa using honr
          have hkeep : keepUtxo svc exclude onr u = true := by
            simp [keepUtxo, hex, honr]
          rw [List.filter_cons_of_pos (by simp [hkeep])]
          obtain ⟨h1, h2, h3⟩ := ih (acc ++ [u]) (amt + u.value) c hc
          have hsub : target - amt - u.value = target - (amt + u.value) := by omega
          refine ⟨?_, ?_, h3⟩
          · rw [h1, greedyPrefix, if_neg htne, hsub]
            simp
          · rw [h2, greedyPrefix, if_neg htne, hsub, sumValues_cons]
            omega

/-- The initial state satisfies the invariant. -/
theorem sfInit_inv (v : α) : SFInv v (sfInit : SFState α) := by
  refine ⟨?_, ?_, ?_, ?_, ?_, ?_, ?_, ?_, ?_⟩ <;> simp [sfInit]

set_option maxHeartbeats 2000000 in
/-- Every step of either caller preserves the single-flight invariant. -/
theorem sfStep_inv (v : α) (who : Bool) (s : SFState α) (h : SFInv v s) :
    SFInv v (sfStep v who s) := by
  obtain ⟨h1, h2, h3, h4, h5, h6, h7, h8, h9⟩ := h
  rcases s with ⟨entry, pcA, pcB, resA, resB, calls⟩
  simp only at h1 h2 h3 h4 h5 h6 h7 h8 h9
  cases who <;> cases pcA <;> cases pcB <;> rcases entry with _ | (_ | w) <;>
    simp only [sfStep, sfLocalStep, SFInv, if_true, if_false] <;>
    simp_all

/-- The invariant holds after running any interleaving schedule. -/
theorem sfRun_inv (v : α) (sched : List Bool) (s : SFState α) (h : SFInv v s) :
    SFInv v (sfRun v sched s) := by
  induction sched generalizing s with
  | nil => exact h
  | cons who sched ih => exact ih _ (sfStep_inv v who s h)

/-- Projecting `collectSatoshi` onto its outcome, phrased through the named
views. -/
theorem collectSatoshi_fst_eq (env : AddressEnv) (svc : Service A) (cache : DataCacheState)
    (props : CollectProps) :
    (collectSatoshi env svc cache props).1
      = (if !props.allowInsufficient
            && (collectGo props.targetAmount props.excludeUtxos props.onlyNonRgbppUtxos svc
                (fetchedUtxos env svc cache props) [] 0 cache.hasAssetsCache).2.1
              < props.targetAmount then
          .error (TxBuildError.withComment .INSUFFICIENT_UTXO
            (insufficientComment props.targetAmount
              (collectGo props.targetAmount props.excludeUtxos props.onlyNonRgbppUtxos svc
                (fetchedUtxos env svc cache props) [] 0 cache.hasAssetsCache).2.1))
        else
          .ok { utxos := (collectGo props.targetAmount props.excludeUtxos
                  props.onlyNonRgbppUtxos svc (fetchedUtxos env svc cache props) [] 0
                  cache.hasAssetsCache).1
                satoshi := (collectGo props.targetAmount props.excludeUtxos
                  props.onlyNonRgbppUtxos svc (fetchedUtxos env svc cache props) [] 0
                  cache.hasAssetsCache).2.1
                exceedSatoshi := ((collectGo props.targetAmount props.excludeUtxos
                  props.onlyNonRgbppUtxos svc (fetchedUtxos env svc cache props) [] 0
                  cache.hasAssetsCache).2.1 : Int) - (props.targetAmount : Int) }) := by
  simp only [collectSatoshi, fetchedUtxos]
  split <;> simp_all

/-- The outcome of one `collectSatoshi` call, phrased through the named
views: provided the asset cache is coherent, the call fails with the
insufficiency error exactly when insufficiency is not allowed and the greedy
selection's total falls short, and otherwise returns the greedy selection
with its total and surplus. -/
theorem collectSatoshi_outcome (env : AddressEnv) (svc : Service A)
    (cache : DataCacheState) (props : CollectProps)
    (hc : CacheCoherent svc cache.hasAssetsCache) :
    (collectSatoshi env svc cache props).1
      = (if props.allowInsufficient = false
            ∧ sumValues (selectionOf env svc cache props) < props.targetAmount then
          .error (TxBuildError.withComment .INSUFFICIENT_UTXO
            (insufficientComment props.targetAmount
              (sumValues (selectionOf env svc cache props))))
        else
          .ok { utxos := selectionOf env svc cache props
                satoshi := sumValues (selectionOf env svc cache props)
                exceedSatoshi := (sumValues (selectionOf env svc cache props) : Int)
                  - (props.targetAmount : Int) }) := by
  obtain ⟨h1, h2, h3⟩ := collectGo_eq props.targetAmount props.excludeUtxos
    props.onlyNonRgbppUtxos svc (fetchedUtxos env svc cache props) [] 0
    cache.hasAssetsCache hc
  have key1 : (collectGo props.targetAmount props.excludeUtxos props.onlyNonRgbppUtxos svc
      (fetchedUtxos env svc cache props) [] 0 cache.hasAssetsCache).1
      = selectionOf env svc cache props := by
    rw [h1]
    simp [selectionOf, filteredCandidates]
  have key2 : (collectGo props.targetAmount props.excludeUtxos props.onlyNonRgbppUtxos svc
      (fetchedUtxos env svc cache props) [] 0 cache.hasAssetsCache).2.1
      = sumValues (selectionOf env svc cache props) := by
    rw [h2]
    simp [selectionOf, filteredCandidates]
  rw [collectSatoshi_fst_eq, key1, key2]
  by_cases hallow : props.allowInsufficient
  · rw [if_neg (by simp [hallow]), if_neg (by simp [hallow])]
  · by_cases hlt : sumValues (selectionOf env svc cache props) < props.targetAmount
    · rw [if_pos (by simp [hallow, hlt]), if_pos ⟨by simpa using hallow, hlt⟩]
    · rw [if_neg (by simp [hallow, hlt]), if_neg (by simp [hlt])]

/-- C1: for every candidate UTXO list and target amount, `collectSatoshi`
returns a prefix of the sorted, filtered candidate list (candidates surviving
the exclusion-list and asset-binding filters, taken in order) whose
cumulative value is the first cumulative value to reach the target (the whole
filtered list when even its total falls short): the selection is a prefix of
the filtered candidates, every strictly shorter prefix sums below the target,
the selection covers the target whenever the filtered candidates can, and the
call returns exactly that selection with its total and surplus (or the
insufficiency failure handled in C3). -/
theorem collectSatoshi_first_sufficient_selection (A : Type) (env : AddressEnv)
    (svc : Service A) (cache : DataCacheState) (props : CollectProps)
    (hc : CacheCoherent svc cache.hasAssetsCache) :
    selectionOf env svc cache props
        = (filteredCandidates env svc cache props).take (selectionOf env svc cache props).length
      ∧ (∀ m, m < (selectionOf env svc cache props).length →
          sumValues ((filteredCandidates env svc cache props).take m) < props.targetAmount)
      ∧ (props.targetAmount ≤ sumValues (filteredCandidates env svc cache props) →
          props.targetAmount ≤ sumValues (selectionOf env svc cache props))
      ∧ (sumValues (filteredCandidates env svc cache props) < props.targetAmount →
          selectionOf env svc cache props = filteredCandidates env svc cache props)
      ∧ (collectSatoshi env svc cache props).1
          = (if props.allowInsufficient = false
                ∧ sumValues (selectionOf env svc cache props) < props.targetAmount then
              .error (TxBuildError.withComment .INSUFFICIENT_UTXO
                (insufficientComment props.targetAmount
                  (sumValues (selectionOf env svc cache props))))
            else
              .ok { utxos := selectionOf env svc cache props
                    satoshi := sumValues (selectionOf env svc cache props)
                    exceedSatoshi := (sumValues (selectionOf env svc cache props) : Int)
                      - (props.targetAmount : Int) }) := by
  exact ⟨greedyPrefix_take _ _, fun m hm => greedyPrefix_min _ _ m hm,
    fun h => greedyPrefix_sum_ge _ _ h, fun h => greedyPrefix_all _ _ h,
    collectSatoshi_outcome env svc cache props hc⟩

/-- Witness for C1 at the spec's worked example: candidates (100,0,5000),
(100,1,3000), (90,0,2000) with target 6000 and no exclusions select
[(90,0),(100,0)] with total 7000 and surplus 1000. -/
theorem collectSatoshi_first_sufficient_selection_witness :
    (collectSatoshi exEnv exService ⟨[], []⟩ exProps).1
      = .ok { utxos := [exUtxo "c" 0 2000, exUtxo "a" 0 5000]
              satoshi := 7000, exceedSatoshi := 1000 } := by
  have h := (collectSatoshi_first_sufficient_selection Unit exEnv exService ⟨[], []⟩
    exProps (cacheCoherent_nil exService)).2.2.2.2
  rw [h]
  simp [selectionOf, filteredCandidates, fetchedUtxos, getOrCompute, getUtxos, exEnv,
    exService, exProps, exCandidates, exUtxo, List.mergeSort, List.splitInTwo, List.splitAt,
    List.splitAt.go, List.merge, utxoSortLE, keepUtxo, isExcluded, hasRgbppAssetsGetter,
    greedyPrefix, sumValues]

/-- The cache state a `collectSatoshi` call leaves behind, in either
outcome. -/
theorem collectSatoshi_cacheState (env : AddressEnv) (svc : Service A)
    (cache : DataCacheState) (props : CollectProps) :
    (collectSatoshi env svc cache props).2.1
      = { utxosCache := (getOrCompute cache.utxosCache props.internalCacheKey fun _ =>
            getUtxos env svc props.address
              { only_confirmed := props.onlyConfirmedUtxos
                min_satoshi := props.minUtxoSatoshi
                no_cache := props.noAssetsApiCache }).2.1
          hasAssetsCache := (collectGo props.targetAmount props.excludeUtxos
            props.onlyNonRgbppUtxos svc (fetchedUtxos env svc cache props) [] 0
            cache.hasAssetsCache).2.2 } := by
  simp only [collectSatoshi, fetchedUtxos]
  split <;> rfl

/-- The number of remote listing invocations a `collectSatoshi` call makes,
in either outcome. -/
theorem collectSatoshi_listingCalls (env : AddressEnv) (svc : Service A)
    (cache : DataCacheState) (props : CollectProps) :
    (collectSatoshi env svc cache props).2.2
      = (getOrCompute cache.utxosCache props.internalCacheKey fun _ =>
          getUtxos env svc props.address
            { only_confirmed := props.onlyConfirmedUtxos
              min_satoshi := props.minUtxoSatoshi
              no_cache := props.noAssetsApiCache }).2.2 := by
  simp only [collectSatoshi]
  split <;> rfl

/-- C2: for every cache key, two calls of `collectSatoshi` (hence of the
cached `getUtxos` fetch) supplying the same internal cache key on the same
`DataSource` invoke the underlying remote listing exactly once and share the
one computed list.  Sequentially: an unseen key costs one listing call, the
follow-up call with the same key costs zero and resolves the same candidate
list; likewise for the modelled `getOrCompute` itself.  Concurrently: in the
single-flight model, under every interleaving of two callers of the same
unseen key, the producer runs at most once — exactly once by the time either
caller finishes, and every finished caller holds the one computed value. -/
theorem cachedGetUtxos_single_flight :
    (∀ (A : Type) (env : AddressEnv) (svc : Service A) (cache : DataCacheState)
        (props : CollectProps) (k : String), props.internalCacheKey = some k →
        cacheLookup k cache.utxosCache = none →
        (collectSatoshi env svc cache props).2.2 = 1
          ∧ (collectSatoshi env svc (collectSatoshi env svc cache props).2.1 props).2.2 = 0
          ∧ fetchedUtxos env svc (collectSatoshi env svc cache props).2.1 props
              = fetchedUtxos env svc cache props)
  ∧ (∀ (α : Type) (c : List (String × α)) (k : String) (p : Unit → α),
        cacheLookup k c = none →
        (getOrCompute c (some k) p).2.2 = 1
          ∧ (getOrCompute (getOrCompute c (some k) p).2.1 (some k) p).2.2 = 0
          ∧ (getOrCompute c (some k) p).1 = p ()
          ∧ (getOrCompute (getOrCompute c (some k) p).2.1 (some k) p).1
              = (getOrCompute c (some k) p).1)
  ∧ (∀ (α : Type) (v : α) (sched : List Bool),
        (sfRun v sched sfInit).calls ≤ 1
          ∧ ((sfRun v sched sfInit).pcA = .done → (sfRun v sched sfInit).resA = some v)
          ∧ ((sfRun v sched sfInit).pcB = .done → (sfRun v sched sfInit).resB = some v)
          ∧ ((sfRun v sched sfInit).pcA = .done ∨ (sfRun v sched sfInit).pcB = .done →
              (sfRun v sched sfInit).calls = 1)) := by
  refine ⟨?_, ?_, ?_⟩
  · intro A env svc cache props k hk hlook
    have hfirst : getOrCompute cache.utxosCache props.internalCacheKey (fun _ =>
        getUtxos env svc props.address
          { only_confirmed := props.onlyConfirmedUtxos
            min_satoshi := props.minUtxoSatoshi
            no_cache := props.noAssetsApiCache })
        = (getUtxos env svc props.address
            { only_confirmed := props.onlyConfirmedUtxos
              min_satoshi := props.minUtxoSatoshi
              no_cache := props.noAssetsApiCache },
           (k, getUtxos env svc props.address
            { only_confirmed := props.onlyConfirmedUtxos
              min_satoshi := props.minUtxoSatoshi
              no_cache := props.noAssetsApiCache }) :: cache.utxosCache, 1) := by
      rw [hk]
      simp only [getOrCompute, hlook]
    refine ⟨?_, ?_, ?_⟩
    · rw [collectSatoshi_listingCalls, hfirst]
    · rw [collectSatoshi_listingCalls, collectSatoshi_cacheState, hfirst, hk]
      simp [getOrCompute, cacheLookup]
    · rw [fetchedUtxos, collectSatoshi_cacheState, hfirst, hk]
      simp only [getOrCompute, cacheLookup, if_pos rfl]
      rw [fetchedUtxos, hk]
      simp only [getOrCompute, hlook]
      simp
  · intro α c k p hlook
    refine ⟨?_, ?_, ?_, ?_⟩ <;> simp [getOrCompute, hlook, cacheLookup]
  · intro α v sched
    obtain ⟨h1, h2, h3, h4, h5, h6, h7, h8, h9⟩ := sfRun_inv v sched sfInit (sfInit_inv v)
    refine ⟨h1, h7, h8, ?_⟩
    intro hdone
    exact (h6 v (h9 hdone)).2.1

/-- Witness for C2: a first keyed call costs one remote listing, the second
call with the same key costs zero; and in the single-flight model the
schedule A, A, B completes both callers with exactly one producer run and
both holding the produced value. -/
theorem cachedGetUtxos_single_flight_witness :
    (collectSatoshi exEnv exService ⟨[], []⟩
        { exProps with internalCacheKey := some "k" }).2.2 = 1
      ∧ (collectSatoshi exEnv exService
          (collectSatoshi exEnv exService ⟨[], []⟩
            { exProps with internalCacheKey := some "k" }).2.1
          { exProps with internalCacheKey := some "k" }).2.2 = 0
      ∧ (sfRun 42 [true, true, false] (sfInit : SFState Nat)).calls = 1
      ∧ (sfRun 42 [true, true, false] (sfInit : SFState Nat)).resA = some 42
      ∧ (sfRun 42 [true, true, false] (sfInit : SFState Nat)).resB = some 42 := by
  have hseq := cachedGetUtxos_single_flight.1 Unit exEnv exService ⟨[], []⟩
    { exProps with internalCacheKey := some "k" } "k" rfl rfl
  have hconc := cachedGetUtxos_single_flight.2.2 Nat 42 [true, true, false]
  have hpcA : (sfRun 42 [true, true, false] (sfInit : SFState Nat)).pcA = .done := by
    simp [sfRun, sfStep, sfLocalStep, sfInit]
  have hpcB : (sfRun 42 [true, true, false] (sfInit : SFState Nat)).pcB = .done := by
    simp [sfRun, sfStep, sfLocalStep, sfInit]
  exact ⟨hseq.1, hseq.2.1, hconc.2.2.2 (Or.inl hpcA), hconc.2.1 hpcA, hconc.2.2.1 hpcB⟩

/-- C3: `collectSatoshi` fails — with `INSUFFICIENT_UTXO` carrying the
requested and achieved amounts — exactly when the accumulated total is
strictly below the target and `allowInsufficient` is false; a normal return
carries `surplus = totalValue - targetAmount`, the surplus is negative only
when `allowInsufficient` is true, and a total exactly equal to the target
never fails. -/
theorem collectSatoshi_insufficient_iff (A : Type) (env : AddressEnv) (svc : Service A)
    (cache : DataCacheState) (props : CollectProps)
    (hc : CacheCoherent svc cache.hasAssetsCache) :
    ((∃ e, (collectSatoshi env svc cache props).1 = .error e)
        ↔ props.allowInsufficient = false
            ∧ sumValues (selectionOf env svc cache props) < props.targetAmount)
      ∧ (∀ e, (collectSatoshi env svc cache props).1 = .error e →
          e = TxBuildError.withComment .INSUFFICIENT_UTXO
            (insufficientComment props.targetAmount
              (sumValues (selectionOf env svc cache props))))
      ∧ (∀ r, (collectSatoshi env svc cache props).1 = .ok r →
          r.satoshi = sumValues (selectionOf env svc cache props)
            ∧ r.exceedSatoshi = (r.satoshi : Int) - (props.targetAmount : Int)
            ∧ (r.exceedSatoshi < 0 → props.allowInsufficient = true))
      ∧ (props.targetAmount ≤ sumValues (selectionOf env svc cache props) →
          ∀ e, (collectSatoshi env svc cache props).1 ≠ .error e) := by
  have hout := collectSatoshi_outcome env svc cache props hc
  by_cases hcond : props.allowInsufficient = false
      ∧ sumValues (selectionOf env svc cache props) < props.targetAmount
  · rw [if_pos hcond] at hout
    refine ⟨⟨fun _ => hcond, fun _ => ⟨_, hout⟩⟩, ?_, ?_, ?_⟩
    · intro e he
      rw [hout] at he
      exact (Except.error.inj he).symm
    · intro r hr
      rw [hout] at hr
      exact absurd hr (by simp)
    · intro hge e
      exact absurd hcond.2 (by omega)
  · rw [if_neg hcond] at hout
    refine ⟨⟨?_, fun h => absurd h hcond⟩, ?_, ?_, ?_⟩
    · rintro ⟨e, he⟩
      rw [hout] at he
      exact absurd he (by simp)
    · intro e he
      rw [hout] at he
      exact absurd he (by simp)
    · intro r hr
      rw [hout] at hr
      obtain rfl := Except.ok.inj hr
      refine ⟨rfl, rfl, ?_⟩
      intro hneg
      rcases Bool.eq_false_or_eq_true props.allowInsufficient with htrue | hfalse
      · exact htrue
      · exfalso
        apply hcond
        refine ⟨hfalse, ?_⟩
        simp only at hneg
        omega
    · intro hge e he
      rw [hout] at he
      exact absurd he (by simp)

/-- Witness for C3 at the spec's adjusted example: target 10001 consumes all
three candidates (total 10000) and fails with the insufficiency error
carrying both amounts. -/
theorem collectSatoshi_insufficient_iff_witness :
    (collectSatoshi exEnv exService ⟨[], []⟩ { exProps with targetAmount := 10001 }).1
      = .error (TxBuildError.withComment .INSUFFICIENT_UTXO
          "expected: 10001, actual: 10000") := by
  have h := collectSatoshi_insufficient_iff Unit exEnv exService ⟨[], []⟩
    { exProps with targetAmount := 10001 } (cacheCoherent_nil exService)
  have hsum : sumValues (selectionOf exEnv exService ⟨[], []⟩
      { exProps with targetAmount := 10001 }) = 10000 := by
    simp [selectionOf, filteredCandidates, fetchedUtxos, getOrCompute, getUtxos, exEnv,
      exService, exProps, exCandidates, List.mergeSort, List.splitInTwo, List.splitAt,
      List.splitAt.go, List.merge, utxoSortLE, keepUtxo, isExcluded, hasRgbppAssetsGetter,
      greedyPrefix, sumValues]
  obtain ⟨e, he⟩ := h.1.mpr ⟨rfl, by rw [hsum]; norm_num [exProps]⟩
  rw [he, h.2.1 e he, hsum]
  rfl

/-- Everything the candidate loop accepts was either already accumulated or
is a candidate that passed the exclusion test (no cache assumption
needed). -/
theorem collectGo_mem (target : Nat) (exclude : List (String × Nat)) (onr : Bool)
    (svc : Service A) :
    ∀ (l acc : List Utxo) (amt : Nat) (c : List (String × Bool)) (u : Utxo),
      u ∈ (collectGo target exclude onr svc l acc amt c).1 →
      u ∈ acc ∨ (u ∈ l ∧ isExcluded exclude u = false) := by
  intro l
  induction l with
  | nil =>
    intro acc amt c u hu
    simp only [collectGo] at hu
    exact Or.inl hu
  | cons v rest ih =>
    intro acc amt c u hu
    simp only [collectGo] at hu
    by_cases hstop : amt ≥ target
    · rw [if_pos hstop] at hu
      exact Or.inl hu
    · rw [if_neg hstop] at hu
      by_cases hex : isExcluded exclude v = true
      · rw [if_pos hex] at hu
        rcases ih acc amt c u hu with h | ⟨h1, h2⟩
        · exact Or.inl h
        · exact Or.inr ⟨List.mem_cons_of_mem v h1, h2⟩
      · rw [if_neg hex] at hu
        replace hex : isExcluded exclude v = false := by simpa using hex
        by_cases honr : onr = true
        · rw [if_pos honr] at hu
          by_cases hflag : (getOrCompute c (some (utxoKey v.txid v.vout)) fun _ =>
              hasRgbppAssetsGetter svc v.txid v.vout).1 = true
          · rw [if_pos hflag] at hu
            rcases ih acc amt _ u hu with h | ⟨h1, h2⟩
            · exact Or.inl h
            · exact Or.inr ⟨List.mem_cons_of_mem v h1, h2⟩
          · rw [if_neg hflag] at hu
            rcases ih (acc ++ [v]) (amt + v.value) _ u hu with h | ⟨h1, h2⟩
            · rcases List.mem_append.mp h with h' | h'
              · exact Or.inl h'
              · obtain rfl : u = v := by simpa using h'
                exact Or.inr ⟨List.mem_cons_self u rest, hex⟩
            · exact Or.inr ⟨List.mem_cons_of_mem v h1, h2⟩
        · rw [if_neg honr] at hu
          rcases ih (acc ++ [v]) (amt + v.value) c u hu with h | ⟨h1, h2⟩
          · rcases List.mem_append.mp h with h' | h'
            · exact Or.inl h'
            · obtain rfl : u = v := by simpa using h'
              exact Or.inr ⟨List.mem_cons_self u rest, hex⟩
          · exact Or.inr ⟨List.mem_cons_of_mem v h1, h2⟩

/-- C4: every `(txid, vout)` pair listed in the exclusion list is absent from
the returned selection, regardless of the candidate's position; exclusion
matches by exact `(txid, vout)` equality. -/
theorem collectSatoshi_never_selects_excluded (A : Type) (env : AddressEnv)
    (svc : Service A) (cache : DataCacheState) (props : CollectProps)
    (r : CollectResult) (hr : (collectSatoshi env svc cache props).1 = .ok r)
    (e : String × Nat) (he : e ∈ props.excludeUtxos) (u : Utxo) (hu : u ∈ r.utxos) :
    ¬(u.txid = e.1 ∧ u.vout = e.2) := by
  rintro ⟨htx, hv⟩
  rw [collectSatoshi_fst_eq] at hr
  split at hr
  · exact absurd hr (by simp)
  · obtain rfl := Except.ok.inj hr
    rcases collectGo_mem props.targetAmount props.excludeUtxos props.onlyNonRgbppUtxos svc
        (fetchedUtxos env svc cache props) [] 0 cache.hasAssetsCache u hu with h | ⟨_, hex⟩
    · exact absurd h (by simp)
    · rw [isExcluded] at hex
      rcases Bool.and_eq_false_iff.mp hex with hlen | hfind
      · have : props.excludeUtxos = [] := by
          simpa using hlen
        rw [this] at he
        exact absurd he (by simp)
      · have hnone : (props.excludeUtxos.find? fun x => x.1 == u.txid && x.2 == u.vout)
            = none := by
          rcases hfq : props.excludeUtxos.find? fun x => x.1 == u.txid && x.2 == u.vout
            with _ | x
          · exact hfq
          · rw [hfq] at hfind
            simp at hfind
        exact absurd (by simp [htx, hv]) (List.find?_eq_none.mp hnone e he)

/-- Witness for C4: with target 4000 and exclusion list [("a",0)], the
example selects [(90,0),(100,1)] — the excluded outpoint ("a",0) is skipped
although it sorts before ("b",1) — and the selected (90,0) candidate indeed
does not match the excluded pair. -/
theorem collectSatoshi_never_selects_excluded_witness :
    (collectSatoshi exEnv exService ⟨[], []⟩
        { exProps with targetAmount := 4000, excludeUtxos := [("a", 0)] }).1
      = .ok { utxos := [exUtxo "c" 0 2000, exUtxo "b" 1 3000]
              satoshi := 5000, exceedSatoshi := 1000 }
    ∧ ¬((exUtxo "c" 0 2000).txid = "a" ∧ (exUtxo "c" 0 2000).vout = 0) := by
  have hok : (collectSatoshi exEnv exService ⟨[], []⟩
      { exProps with targetAmount := 4000, excludeUtxos := [("a", 0)] }).1
      = .ok { utxos := [exUtxo "c" 0 2000, exUtxo "b" 1 3000]
              satoshi := 5000, exceedSatoshi := 1000 } := by
    simp [collectSatoshi, getOrCompute, getUtxos, exEnv, exService, exProps, exCandidates,
      exUtxo, List.mergeSort, List.splitInTwo, List.splitAt, List.splitAt.go, List.merge,
      utxoSortLE, collectGo, isExcluded, keepUtxo, hasRgbppAssetsGetter]
  refine ⟨hok, ?_⟩
  exact collectSatoshi_never_selects_excluded Unit exEnv exService ⟨[], []⟩
    { exProps with targetAmount := 4000, excludeUtxos := [("a", 0)] } _ hok
    ("a", 0) (by simp) _ (by simp)

/-- C5: when asset exclusion (`onlyNonRgbppUtxos`) is enabled, every
candidate whose per-output asset-binding lookup (resolved through the cache
keyed by `txid:vout`) returns a non-empty binding list is skipped: no
selected UTXO has a non-empty binding list. -/
theorem collectSatoshi_skips_rgbpp_bound (A : Type) (env : AddressEnv) (svc : Service A)
    (cache : DataCacheState) (props : CollectProps)
    (hc : CacheCoherent svc cache.hasAssetsCache)
    (honr : props.onlyNonRgbppUtxos = true) (r : CollectResult)
    (hr : (collectSatoshi env svc cache props).1 = .ok r) (u : Utxo) (hu : u ∈ r.utxos) :
    svc.getRgbppAssetsByBtcUtxo u.txid u.vout = [] := by
  rw [collectSatoshi_outcome env svc cache props hc] at hr
  split at hr
  · exact absurd hr (by simp)
  · obtain rfl := Except.ok.inj hr
    have hu' : u ∈ selectionOf env svc cache props := hu
    rw [selectionOf, greedyPrefix_take] at hu'
    have hmem : u ∈ filteredCandidates env svc cache props :=
      List.take_subset _ _ hu'
    have hkeep := (List.mem_filter.mp hmem).2
    simp [keepUtxo, honr, hasRgbppAssetsGetter] at hkeep
    exact hkeep.2

/-- Witness for C5: with asset exclusion enabled and a binding reported on
("c",0), the example selects [(100,0),(100,1)] — skipping the bound (90,0)
candidate although it sorts first — and the selected "a" outpoint indeed has
no bindings. -/
theorem collectSatoshi_skips_rgbpp_bound_witness :
    (collectSatoshi exEnv exServiceRgb ⟨[], []⟩
        { exProps with onlyNonRgbppUtxos := true }).1
      = .ok { utxos := [exUtxo "a" 0 5000, exUtxo "b" 1 3000]
              satoshi := 8000, exceedSatoshi := 2000 }
    ∧ exServiceRgb.getRgbppAssetsByBtcUtxo "a" 0 = [] := by
  have hok : (collectSatoshi exEnv exServiceRgb ⟨[], []⟩
      { exProps with onlyNonRgbppUtxos := true }).1
      = .ok { utxos := [exUtxo "a" 0 5000, exUtxo "b" 1 3000]
              satoshi := 8000, exceedSatoshi := 2000 } := by
    simp +decide [collectSatoshi, getOrCompute, getUtxos, exEnv, exServiceRgb, exProps,
      exCandidates, exUtxo, List.mergeSort, List.splitInTwo, List.splitAt, List.splitAt.go,
      List.merge, utxoSortLE, collectGo, isExcluded, keepUtxo, hasRgbppAssetsGetter, utxoKey,
      cacheLookup]
  refine ⟨hok, ?_⟩
  exact collectSatoshi_skips_rgbpp_bound Unit exEnv exServiceRgb ⟨[], []⟩
    { exProps with onlyNonRgbppUtxos := true } (cacheCoherent_nil exServiceRgb) rfl _ hok
    (exUtxo "a" 0 5000) (by simp)

/-- The sort comparator is transitive. -/
theorem utxoSortLE_trans : ∀ a b c : ApiUtxo, utxoSortLE a b → utxoSortLE b c →
    utxoSortLE a c := by
  intro a b c hab hbc
  simp only [utxoSortLE] at hab hbc ⊢
  split_ifs at hab hbc ⊢ <;> simp_all <;> omega

/-- The sort comparator is total. -/
theorem utxoSortLE_total : ∀ a b : ApiUtxo, utxoSortLE a b || utxoSortLE b a := by
  intro a b
  simp only [utxoSortLE]
  split_ifs <;> simp_all <;> omega

/-- The comparator, read as a proposition: lexicographic on
(block height, vout). -/
theorem utxoSortLE_iff (a b : ApiUtxo) :
    utxoSortLE a b = true
      ↔ (a.status.block_height < b.status.block_height
          ∨ (a.status.block_height = b.status.block_height ∧ a.vout ≤ b.vout)) := by
  simp only [utxoSortLE]
  split_ifs <;> simp_all <;> omega

/-- C6: `getUtxos` returns the remote records sorted ascending by
(confirmation block height, vout index) — height primary, vout breaking ties
— and candidates equal on both keys keep their relative order from the
remote input: the result is the mapped stable sort of the remote list, the
sorted list is a permutation of the remote list, it is pairwise ordered by
the lexicographic key, and for any fixed (height, vout) key the sorted list
restricted to that key equals the remote list restricted to it. -/
theorem getUtxos_sorted_stable (A : Type) (env : AddressEnv) (svc : Service A)
    (address : String) (params : BtcApiUtxoParams) :
    getUtxos env svc address params
        = ((svc.getBtcUtxos address params).mergeSort utxoSortLE).map (fun row =>
            { address := some address
              scriptPk := env.addressToScriptPublicKeyHex address
              txid := row.txid
              vout := row.vout
              value := row.value
              addressType := env.getAddressType (some address) })
      ∧ List.Perm ((svc.getBtcUtxos address params).mergeSort utxoSortLE)
          (svc.getBtcUtxos address params)
      ∧ ((svc.getBtcUtxos address params).mergeSort utxoSortLE).Pairwise (fun a b =>
          a.status.block_height < b.status.block_height
            ∨ (a.status.block_height = b.status.block_height ∧ a.vout ≤ b.vout))
      ∧ ∀ (h : Int) (v : Nat),
          ((svc.getBtcUtxos address params).mergeSort utxoSortLE).filter
              (fun r => r.status.block_height = h ∧ r.vout = v)
            = (svc.getBtcUtxos address params).filter
              (fun r => r.status.block_height = h ∧ r.vout = v) := by
  refine ⟨rfl, List.mergeSort_perm _ _, ?_, ?_⟩
  · exact (List.sorted_mergeSort utxoSortLE_trans utxoSortLE_total _).imp
      fun hab => (utxoSortLE_iff _ _).mp hab
  · intro h v
    set l := svc.getBtcUtxos address params with hl
    set p : ApiUtxo → Bool := fun r => decide (r.status.block_height = h ∧ r.vout = v) with hp
    have hpair : (l.filter p).Pairwise fun a b => utxoSortLE a b = true := by
      apply List.pairwise_of_forall_mem_list
      intro a ha b hb
      have hpa := List.of_mem_filter ha
      have hpb := List.of_mem_filter hb
      rw [hp] at hpa hpb
      simp only [decide_eq_true_eq] at hpa hpb
      rw [utxoSortLE_iff]
      right
      rw [hpa.1, hpb.1, hpa.2, hpb.2]
      exact ⟨rfl, le_refl v⟩
    have hsub : List.Sublist (l.filter p) (l.mergeSort utxoSortLE) :=
      List.sublist_mergeSort utxoSortLE_trans utxoSortLE_total hpair (List.filter_sublist l)
    have hsub2 : List.Sublist (l.filter p) ((l.mergeSort utxoSortLE).filter p) := by
      have h1 := hsub.filter p
      have h2 : (l.filter p).filter p = l.filter p :=
        List.filter_eq_self.mpr fun a ha => List.of_mem_filter ha
      rwa [h2] at h1
    have hlen : ((l.mergeSort utxoSortLE).filter p).length = (l.filter p).length :=
      ((List.mergeSort_perm l utxoSortLE).filter p).length_eq
    exact (hsub2.eq_of_length hlen.symm).symm

/-- C7: `getUtxo` fails with `UNSPENDABLE_OUTPUT` exactly when the resolved
entity lacks an address — that is, when `getOutput` resolves a bare
data-carrier `Output` — the bare case arises exactly on data-carrier
scripts, and `getUtxo` never returns a `Utxo` whose underlying script is a
data-carrier script. -/
theorem getUtxo_unspendable_iff (A : Type) (env : AddressEnv) (svc : Service A)
    (hash : String) (index : Nat) (rc : Bool) :
    ((getUtxo env svc hash index rc
        = .error (TxBuildError.withComment .UNSPENDABLE_OUTPUT (outpointComment hash index)))
      ↔ ∃ o, getOutput env svc hash index rc = .ok (some (.plain o)))
    ∧ (∀ o, getOutput env svc hash index rc = .ok (some (.plain o)) →
        isOpReturnScriptPubkey o.scriptPk = true)
    ∧ (∀ u, getOutput env svc hash index rc = .ok (some (.spendable u)) →
        isOpReturnScriptPubkey u.scriptPk = false)
    ∧ (∀ u, getUtxo env svc hash index rc = .ok (some u) →
        isOpReturnScriptPubkey u.scriptPk = false) := by
  rcases htx : svc.getBtcTransaction (remove0x hash) with _ | tx
  · refine ⟨?_, ?_, ?_, ?_⟩ <;> simp [getUtxo, getOutput, htx]
  · by_cases hconf : (rc && !tx.status.confirmed) = true
    · refine ⟨?_, ?_, ?_, ?_⟩ <;>
        simp +decide [getUtxo, getOutput, htx, hconf, TxBuildError.withComment]
    · rcases hvout : tx.vout[index]? with _ | vout
      · refine ⟨?_, ?_, ?_, ?_⟩ <;> simp [getUtxo, getOutput, htx, hconf, hvout]
      · by_cases hop : isOpReturnScriptPubkey vout.scriptpubkey = true
        · refine ⟨?_, ?_, ?_, ?_⟩ <;> simp [getUtxo, getOutput, htx, hconf, hvout, hop]
        · replace hop : isOpReturnScriptPubkey vout.scriptpubkey = false := by
            simpa using hop
          refine ⟨?_, ?_, ?_, ?_⟩ <;> simp [getUtxo, getOutput, htx, hconf, hvout, hop]

/-- Witness for C7: on the data-carrier transaction "t3" `getUtxo` fails
with `UNSPENDABLE_OUTPUT`, while on the ordinary confirmed "t1" it returns
the spendable output, whose script is not a data-carrier script. -/
theorem getUtxo_unspendable_iff_witness :
    getUtxo exEnv exServiceTx "t3" 0 false
        = .error (TxBuildError.withComment .UNSPENDABLE_OUTPUT (outpointComment "t3" 0))
      ∧ isOpReturnScriptPubkey
          { txid := "t1", vout := 0, value := 1000, scriptPk := "51"
            address := some "addr", addressType := exEnv.getAddressType (some "addr") : Utxo
          }.scriptPk = false := by
  constructor
  · exact (getUtxo_unspendable_iff Unit exEnv exServiceTx "t3" 0 false).1.mpr
      ⟨{ txid := "t3", vout := 0, value := 0, scriptPk := "6a24aa21a9ed" },
        by simp +decide [getOutput, exServiceTx, remove0x, exTxOpReturn,
          isOpReturnScriptPubkey]⟩
  · exact (getUtxo_unspendable_iff Unit exEnv exServiceTx "t1" 0 false).2.2.2 _
      (by simp +decide [getUtxo, getOutput, exServiceTx, remove0x, exTxConfirmed,
        isOpReturnScriptPubkey])

/-- C8: `getOutput` returns the soft "not found" (`none`), and no error, when
the transaction does not exist (for any confirmation requirement) or when the
requested output index does not exist in the transaction (for any
confirmation requirement on a confirmed transaction, and unconditionally at
the default `requireConfirmed = false`). -/
theorem getOutput_soft_notFound (A : Type) (env : AddressEnv) (svc : Service A)
    (hash : String) (index : Nat) :
    (∀ rc, svc.getBtcTransaction (remove0x hash) = none →
        getOutput env svc hash index rc = .ok none)
      ∧ (∀ rc tx, svc.getBtcTransaction (remove0x hash) = some tx →
          tx.status.confirmed = true → tx.vout[index]? = none →
          getOutput env svc hash index rc = .ok none)
      ∧ (∀ tx, svc.getBtcTransaction (remove0x hash) = some tx → tx.vout[index]? = none →
          getOutput env svc hash index false = .ok none) := by
  refine ⟨?_, ?_, ?_⟩
  · intro rc htx
    simp [getOutput, htx]
  · intro rc tx htx hconf hvout
    simp [getOutput, htx, hconf, hvout]
  · intro tx htx hvout
    simp [getOutput, htx, hvout]

/-- Witness for C8: an unknown transaction id and an out-of-range vout index
on the confirmed "t1" both produce the soft "not found". -/
theorem getOutput_soft_notFound_witness :
    getOutput exEnv exServiceTx "missing" 0 false = .ok none
      ∧ getOutput exEnv exServiceTx "t1" 5 true = .ok none := by
  constructor
  · exact (getOutput_soft_notFound Unit exEnv exServiceTx "missing" 0).1 false
      (by simp +decide [exServiceTx, remove0x])
  · exact (getOutput_soft_notFound Unit exEnv exServiceTx "t1" 5).2.1 true exTxConfirmed
      (by simp +decide [exServiceTx, remove0x]) rfl rfl

/-- C9: in `getOutput` the confirmation check precedes the output-index
existence check: on any existing but unconfirmed transaction, a call with
`requireConfirmed = true` fails with `UNCONFIRMED_UTXO` for every index —
including indices that do not exist in the transaction — instead of
returning the soft "not found". -/
theorem getOutput_confirmation_precedes_vout (A : Type) (env : AddressEnv)
    (svc : Service A) (hash : String) (index : Nat) (tx : BtcTx)
    (htx : svc.getBtcTransaction (remove0x hash) = some tx)
    (hunconf : tx.status.confirmed = false) :
    getOutput env svc hash index true
      = .error (TxBuildError.withComment .UNCONFIRMED_UTXO (outpointComment hash index)) := by
  simp [getOutput, htx, hunconf]

/-- Witness for C9: the unconfirmed "t2" has no vout index 5, yet the
confirmed-only lookup fails with `UNCONFIRMED_UTXO` rather than returning the
soft "not found". -/
theorem getOutput_confirmation_precedes_vout_witness :
    exTxUnconfirmed.vout[5]? = none
      ∧ getOutput exEnv exServiceTx "t2" 5 true
          = .error (TxBuildError.withComment .UNCONFIRMED_UTXO (outpointComment "t2" 5)) := by
  refine ⟨rfl, ?_⟩
  exact getOutput_confirmation_precedes_vout Unit exEnv exServiceTx "t2" 5 exTxUnconfirmed
    (by simp +decide [exServiceTx, remove0x]) rfl

/-- C10: `isTransactionConfirmed` reads the transaction's status with no
not-found guard: whenever the service reports the transaction absent — the
very case `getOutput` maps to a soft "not found" — the field access faults
(embedded as `none`) instead of producing a defined boolean, while
`getOutput` on the same id still returns its soft "not found". -/
theorem isTransactionConfirmed_no_guard (A : Type) (svc : Service A) (hash : String)
    (habs : svc.getBtcTransaction (remove0x hash) = none) :
    isTransactionConfirmed svc hash = none
      ∧ (∀ b, isTransactionConfirmed svc hash ≠ some b)
      ∧ (∀ (env : AddressEnv) (index : Nat) (rc : Bool),
          getOutput env svc hash index rc = .ok none) := by
  refine ⟨?_, ?_, ?_⟩
  · simp [isTransactionConfirmed, habs]
  · intro b
    simp [isTransactionConfirmed, habs]
  · intro env index rc
    simp [getOutput, habs]

/-- Witness for C10: on an id the service does not know,
`isTransactionConfirmed` faults (no defined boolean) while `getOutput`
returns the soft "not found". -/
theorem isTransactionConfirmed_no_guard_witness :
    isTransactionConfirmed exServiceTx "missing" = none
      ∧ getOutput exEnv exServiceTx "missing" 0 true = .ok none := by
  have h := isTransactionConfirmed_no_guard Unit exServiceTx "missing"
    (by simp +decide [exServiceTx, remove0x])
  exact ⟨h.1, h.2.2 exEnv 0 true⟩

end RgbppBtc
